import Mathlib

/-!
Shallow embedding of the polygenic plant-disease simulator utilities
(src/poly2/utils.py and src/poly2/config.py), together with proofs of the
specification claims about them.  External collaborators of the repository
(the scipy Beta/Gamma/Normal CDFs, the dopri5 ODE integrator, the bounded
Powell optimizer) are modelled as function parameters of the embedded
definitions; everything the repository itself computes is translated
directly from the source.  Python floats are modelled as real numbers; the
NaN-propagation behaviour relevant to one claim is modelled by the
explicit type RFloat below.
-/

namespace Polygenic

noncomputable section

/-- np.linspace(a, b, num) as an index function giving entry i of the
array.  For num at least 2 the step is (b - a)/(num - 1), and
np.linspace(a, b, 1) = [a]. -/
def linspace (a b : ℝ) (num : ℕ) (i : ℕ) : ℝ :=
  if num ≤ 1 then a else a + i * ((b - a) / ((num : ℝ) - 1))

/-- utils.edge_values(n) = np.linspace(0, 1, n+1). -/
def edge_values (n : ℕ) : List ℝ :=
  (List.range (n + 1)).map (linspace 0 1 (n + 1))

/-- utils.trait_vec(n): dx = 0.5 * (edge_vals[1] - edge_vals[0]);
vec = np.linspace(dx, 1 - dx, n). -/
def trait_vec (n : ℕ) : List ℝ :=
  (List.range n).map
    (linspace (0.5 * ((edge_values n).getD 1 0 - (edge_values n).getD 0 0))
      (1 - 0.5 * ((edge_values n).getD 1 0 - (edge_values n).getD 0 0)) n)

/-- utils.normalise(dist) = dist / sum(dist), elementwise.  Generic over the
number type so that it can be read both over the reals and over the
NaN-tracking type RFloat. -/
def normalise {α : Type} [Add α] [Zero α] [Div α] (dist : List α) : List α :=
  dist.map (fun x => x / dist.sum)

/-- scipy.signal.unit_impulse(N, idx): a length-N vector of zeros with a 1
written at index idx (numpy indexing, so a negative idx counts from the
end of the array). -/
def unit_impulse (N : ℕ) (idx : ℤ) : List ℝ :=
  (List.range N).map
    (fun i => if i = (if 0 ≤ idx then idx else (N : ℤ) + idx).toNat
      then (1 : ℝ) else 0)

/-- Python int() applied to a float: truncation toward zero. -/
def pyInt (x : ℝ) : ℤ := if 0 ≤ x then ⌊x⌋ else -⌊-x⌋

/-- utils.initial_point_distribution(n, mean): N = len(edge_values(n)) - 1,
j = int(mean * (N - 1)), then normalise(signal.unit_impulse(N, j)). -/
def initial_point_distribution (n : ℕ) (mean : ℝ) : List ℝ :=
  normalise (unit_impulse ((edge_values n).length - 1)
    (pyInt (mean * ((((edge_values n).length - 1 : ℕ) : ℝ) - 1))))

/-- utils.beta_dist(n, a, b): CDF differences of the Beta(a, b) distribution
over consecutive trait edges, passed through normalise.  betaCdf is the
external scipy.stats.beta.cdf, taken as a parameter with the scipy
argument order (x, a, b). -/
def beta_dist {α : Type} [Add α] [Sub α] [Zero α] [Div α]
    (betaCdf : ℝ → ℝ → ℝ → α) (n : ℕ) (a b : ℝ) : List α :=
  normalise ((List.range ((edge_values n).length - 1)).map
    (fun i => betaCdf ((edge_values n).getD (i + 1) 0) a b
      - betaCdf ((edge_values n).getD i 0) a b))

/-- The curvature edges used by utils.gamma_dist:
np.concatenate([[np.inf], np.log(1 / edge_vals[1:])]), with np.inf
modelled as the Option value none. -/
def curvature_edge_vals (n : ℕ) : List (Option ℝ) :=
  none :: ((edge_values n).drop 1).map (fun e => some (Real.log (1 / e)))

/-- The external scipy.stats.gamma.cdf evaluated at a curvature edge:
gammaCdf at a finite edge, gammaCdfTop at the np.inf edge. -/
def cdfAtCurvature {α : Type} (gammaCdf : ℝ → ℝ → ℝ → α)
    (gammaCdfTop : ℝ → ℝ → α) (a s : ℝ) : Option ℝ → α
  | none => gammaCdfTop a s
  | some x => gammaCdf x a s

/-- utils.gamma_dist(n, a, b): CDF differences of the Gamma distribution
(shape a, scale 1/b) over consecutive curvature edges, the first of which
is +infinity, passed through normalise.  gammaCdf is the external
scipy.stats.gamma.cdf with argument order (x, a, scale); its value at
np.inf is the separate parameter gammaCdfTop (a, scale). -/
def gamma_dist {α : Type} [Add α] [Sub α] [Zero α] [Div α]
    (gammaCdf : ℝ → ℝ → ℝ → α) (gammaCdfTop : ℝ → ℝ → α)
    (n : ℕ) (a b : ℝ) : List α :=
  normalise ((List.range ((curvature_edge_vals n).length - 1)).map
    (fun i =>
      cdfAtCurvature gammaCdf gammaCdfTop a (1 / b)
        ((curvature_edge_vals n).getD i none)
      - cdfAtCurvature gammaCdf gammaCdfTop a (1 / b)
        ((curvature_edge_vals n).getD (i + 1) none)))

/-- A Python float: either an ordinary real number or NaN.  Used to follow
the NaN values that the external scipy CDFs return for invalid shape
parameters through the distribution builders. -/
inductive RFloat
  | nan : RFloat
  | val : ℝ → RFloat

/-- IEEE-style addition on RFloat: NaN propagates. -/
def RFloat.add : RFloat → RFloat → RFloat
  | .val x, .val y => .val (x + y)
  | _, _ => .nan

/-- IEEE-style subtraction on RFloat: NaN propagates. -/
def RFloat.sub : RFloat → RFloat → RFloat
  | .val x, .val y => .val (x - y)
  | _, _ => .nan

/-- Division on RFloat: NaN propagates.  (On the val/val branch this
inherits the Lean convention x / 0 = 0; that branch is never exercised by
the claims proved about RFloat.) -/
def RFloat.div : RFloat → RFloat → RFloat
  | .val x, .val y => .val (x / y)
  | _, _ => .nan

instance : Add RFloat := ⟨RFloat.add⟩

instance : Sub RFloat := ⟨RFloat.sub⟩

instance : Div RFloat := ⟨RFloat.div⟩

instance : Zero RFloat := ⟨RFloat.val 0⟩

/-- Modelled external behaviour: scipy.stats.gamma.cdf returns NaN at every
evaluation point when the shape parameter is non-positive. -/
def gammaCdfInvalid : ℝ → ℝ → ℝ → RFloat := fun _ _ _ => RFloat.nan

/-- Modelled external behaviour: the value of scipy.stats.gamma.cdf at
np.inf is also NaN when the shape parameter is non-positive. -/
def gammaCdfTopInvalid : ℝ → ℝ → RFloat := fun _ _ => RFloat.nan

/-- Modelled external behaviour: scipy.stats.beta.cdf returns NaN at every
evaluation point when a shape parameter is non-positive. -/
def betaCdfInvalid : ℝ → ℝ → ℝ → RFloat := fun _ _ _ => RFloat.nan

/-- In-place addition to entry 0 of a numpy vector (dispersing[0] += x). -/
def addToHead (x : ℝ) : List ℝ → List ℝ
  | [] => []
  | a :: rest => (a + x) :: rest

/-- In-place addition to the last entry of a numpy vector
(dispersing[-1] += x). -/
def addToLast (x : ℝ) : List ℝ → List ℝ
  | [] => []
  | [a] => [a + x]
  | a :: b :: rest => a :: addToLast x (b :: rest)

/-- utils.dispersal(vec, parent_index, mut_scale): Gaussian CDF evaluated at
all grid edges centred at vec[parent_index] with standard deviation
mut_scale ** 0.5, differenced, and with the CDF mass below edge 0 added to
the first bin and the mass above the last edge added to the last bin.
normCdf is the external scipy.stats.norm.cdf with argument order
(x, loc, scale). -/
def dispersal (normCdf : ℝ → ℝ → ℝ → ℝ) (vec : List ℝ)
    (parent_index : ℕ) (mut_scale : ℝ) : List ℝ :=
  let disp := (edge_values vec.length).map
    (fun e => normCdf e (vec.getD parent_index 0) (mut_scale ^ (0.5 : ℝ)))
  addToLast (1 - disp.getLastD 0)
    (addToHead (disp.headD 0)
      (List.zipWith (fun a b => b - a) disp disp.tail))

/-- utils.get_dispersal_kernel(vec, p, mutation_scale): the list of the N
columns of the N x N kernel; column parent is
p * dispersal(vec, parent, mutation_scale) + (1-p) * unit_impulse(N, parent). -/
def get_dispersal_kernel (normCdf : ℝ → ℝ → ℝ → ℝ) (vec : List ℝ)
    (p mutation_scale : ℝ) : List (List ℝ) :=
  (List.range vec.length).map
    (fun parent =>
      List.zipWith (fun d nd => p * d + (1 - p) * nd)
        (dispersal normCdf vec parent mutation_scale)
        (unit_impulse vec.length (parent : ℤ)))

/-- utils.Fungicide (fields set by its __init__). -/
structure Fungicide where
  decay_rate : ℝ
  asymptote : ℝ
  dose : ℝ
  sprays_list : List ℝ

/-- Fungicide.__init__.  Modelled from the spec: the module poly2.params
(PARAMS.T_1, PARAMS.T_2, PARAMS.T_3) and poly2.consts (FUNG_DECAY_RATE) are
not under src/, so the three fixed calendar spray timepoints and the
default decay rate are taken as parameters. -/
def Fungicide.init (T_1 T_2 T_3 FUNG_DECAY_RATE : ℝ) (num_sprays : ℤ)
    (dose : ℝ) (decay_rate asymptote : Option ℝ) : Fungicide :=
  { decay_rate := decay_rate.getD FUNG_DECAY_RATE
    asymptote := asymptote.getD 1
    dose := dose
    sprays_list :=
      if num_sprays = 1 then [T_2]
      else if num_sprays = 2 then [T_2, T_3]
      else if num_sprays = 3 then [T_1, T_2, T_3]
      else [] }

/-- Fungicide.effect(value_this_strain, t): concentration accumulated from
every spray strictly before t with exponential decay; multiplier
1 - w + w * exp(-curv * concentration), and exactly 1 when the
concentration is 0. -/
def Fungicide.effect (f : Fungicide) (value_this_strain t : ℝ) : ℝ :=
  if (f.sprays_list.map
      (fun T_spray => if t > T_spray
        then f.dose * Real.exp (-(f.decay_rate * (t - T_spray))) else 0)).sum = 0
  then 1
  else 1 - f.asymptote
    + f.asymptote * Real.exp (-(Real.log (1 / value_this_strain)
        * (f.sprays_list.map
          (fun T_spray => if t > T_spray
            then f.dose * Real.exp (-(f.decay_rate * (t - T_spray))) else 0)).sum))

/-- utils.FungicideAsymptote (fields set by its __init__). -/
structure FungicideAsymptote where
  decay_rate : ℝ
  dose : ℝ
  curv : ℝ
  sprays_list : List ℝ

/-- FungicideAsymptote.__init__ (timepoints and default decay rate taken as
parameters, as for Fungicide.init). -/
def FungicideAsymptote.init (T_1 T_2 T_3 FUNG_DECAY_RATE : ℝ)
    (num_sprays : ℤ) (dose curvature : ℝ) (decay_rate : Option ℝ) :
    FungicideAsymptote :=
  { decay_rate := decay_rate.getD FUNG_DECAY_RATE
    dose := dose
    curv := curvature
    sprays_list :=
      if num_sprays = 1 then [T_2]
      else if num_sprays = 2 then [T_2, T_3]
      else if num_sprays = 3 then [T_1, T_2, T_3]
      else [] }

/-- FungicideAsymptote.effect(value_this_strain, t): the asymptote w is the
trait value itself and the curvature is the fixed field. -/
def FungicideAsymptote.effect (f : FungicideAsymptote)
    (value_this_strain t : ℝ) : ℝ :=
  if (f.sprays_list.map
      (fun T_spray => if t > T_spray
        then f.dose * Real.exp (-(f.decay_rate * (t - T_spray))) else 0)).sum = 0
  then 1
  else 1 - value_this_strain
    + value_this_strain * Real.exp (-(f.curv
        * (f.sprays_list.map
          (fun T_spray => if t > T_spray
            then f.dose * Real.exp (-(f.decay_rate * (t - T_spray))) else 0)).sum))

/-- utils.FungicideNoDecay (fields set by its __init__). -/
structure FungicideNoDecay where
  dose : ℝ
  sprays_list : List ℝ

/-- FungicideNoDecay.__init__ (timepoints taken as parameters). -/
def FungicideNoDecay.init (T_1 T_2 T_3 : ℝ) (num_sprays : ℤ) (dose : ℝ) :
    FungicideNoDecay :=
  { dose := dose
    sprays_list :=
      if num_sprays = 1 then [T_2]
      else if num_sprays = 2 then [T_2, T_3]
      else if num_sprays = 3 then [T_1, T_2, T_3]
      else [] }

/-- FungicideNoDecay.effect(value_this_strain, t): the loop overwrites
concentration with the full dose whenever t lies in the 240-unit window
after a spray, and the multiplier is exp(-curvature * concentration) with
no asymptote floor, exactly 1 at concentration 0. -/
def FungicideNoDecay.effect (f : FungicideNoDecay)
    (value_this_strain t : ℝ) : ℝ :=
  if f.sprays_list.foldl
      (fun c T_spray => if t > T_spray ∧ t < T_spray + 240 then f.dose else c)
      0 = 0
  then 1
  else Real.exp (-(Real.log (1 / value_this_strain)
    * f.sprays_list.foldl
      (fun c T_spray => if t > T_spray ∧ t < T_spray + 240 then f.dose else c)
      0))

/-- The state of the external scipy ode integrator object: the current
solution vector and the success flag reported by successful(). -/
structure SolverState (σ : Type) where
  y : σ
  successful : Bool

/-- The recording loop of utils.find_soln_given_beta_and_no_control over
the remaining target times t_out[1:]: at each iteration the success flag of
the previous step is checked (raising RuntimeError, modelled as
Except.error, when it is false), the current solver state is recorded, and
the solver is advanced; after the loop the final solver state is written to
the last column with no further check. -/
def odeLoop {σ : Type} (integrate : SolverState σ → ℝ → SolverState σ) :
    SolverState σ → List ℝ → Except Unit (List σ)
  | st, [] => .ok [st.y]
  | st, t :: ts =>
    if st.successful then
      match odeLoop integrate (integrate st t) ts with
      | .ok cols => .ok (st.y :: cols)
      | .error e => .error e
    else
      .error ()

/-- utils.find_soln_given_beta_and_no_control(beta_, I0, t_vals): initial
state y0 from the initial host area and infected fraction, target times
t_vals (defaulting to np.linspace(T_1, T_end, 2)), then the recording
loop.  The external dopri5 stepper (already closed over ode_simple and
beta_) is the parameter integrate; PARAMS.host_growth_initial_area,
PARAMS.T_1 and PARAMS.T_end come from the external params module and are
parameters. -/
def find_soln_given_beta_and_no_control
    (integrate : SolverState (ℝ × ℝ) → ℝ → SolverState (ℝ × ℝ))
    (host_growth_initial_area T_1 T_end : ℝ) (I0 : ℝ)
    (t_vals : Option (List ℝ)) : Except Unit (List (ℝ × ℝ)) :=
  odeLoop integrate
    { y := (host_growth_initial_area * (1 - I0), host_growth_initial_area * I0)
      successful := true }
    ((match t_vals with
      | none => (List.range 2).map (linspace T_1 T_end 2)
      | some ts => ts).drop 1)

/-- The result object of the external bounded optimizer
scipy.optimize.minimize: the located point x[0] and the success flag. -/
structure MinimizeResult where
  x : ℝ
  success : Bool

/-- utils.beta_objective(beta_, final_sev, I0): squared error between the
simulated final severity and the target.  find_sev is the external
severity solve find_sev_given_beta_and_no_control. -/
def beta_objective (find_sev : ℝ → ℝ → ℝ) (beta_ final_sev I0 : ℝ) : ℝ :=
  (find_sev beta_ I0 - final_sev) ^ 2

/-- utils.find_beta(final_sev, I0): runs the bounded Powell minimization of
beta_objective from initial guess 0.0078 over bounds (1e-4, 5e-2) and
returns x[0] when the optimizer succeeds with x[0] strictly inside the
bounds, otherwise (after printing a warning) the sentinel np.nan, modelled
as none. -/
def find_beta (minimize : (ℝ → ℝ) → ℝ → ℝ × ℝ → MinimizeResult)
    (find_sev : ℝ → ℝ → ℝ) (final_sev I0 : ℝ) : Option ℝ :=
  if (minimize (fun b => beta_objective find_sev b final_sev I0)
        0.0078 (1e-4, 5e-2)).success = true
      ∧ (minimize (fun b => beta_objective find_sev b final_sev I0)
        0.0078 (1e-4, 5e-2)).x < (1e-4, 5e-2).2
      ∧ (minimize (fun b => beta_objective find_sev b final_sev I0)
        0.0078 (1e-4, 5e-2)).x > (1e-4, 5e-2).1
  then some (minimize (fun b => beta_objective find_sev b final_sev I0)
        0.0078 (1e-4, 5e-2)).x
  else none

/-- The attributes set on a Config object by Config.__init__ for the
default scenario type. -/
inductive Attr
  | n_years | sprays | fungicide_mixture | n_k | n_l | decay_rate
  | asymptote | doses | host_on | replace_cultivars | mutation_proportion
  | mutation_scale_host | mutation_scale_fung | k_mu | k_b | l_mu | l_b
  | I0s | betas
  deriving DecidableEq

/-- A Python object as an attribute store: setattr. -/
def setattr {V : Type} (obj : Attr → Option V) (key : Attr) (v : V) :
    Attr → Option V :=
  fun k => if k = key then some v else obj k

/-- A Python object as an attribute store: delattr. -/
def delattr {V : Type} (obj : Attr → Option V) (key : Attr) :
    Attr → Option V :=
  fun k => if k = key then none else obj k

/-- config.Config.__init__ for the default scenario type, as an attribute
store: every attribute the constructor assigns, with the assigned values
(computed from the constructor arguments and the external fitted.csv
lookup) taken as parameters of a common value type V. -/
def Config.init {V : Type}
    (vn_years vsprays vfungicide_mixture vn_k vn_l vdecay_rate vasymptote
      vdoses vhost_on vreplace_cultivars vmutation_proportion
      vmutation_scale_host vmutation_scale_fung vk_mu vk_b vl_mu vl_b
      vI0s vbetas : V) : Attr → Option V :=
  setattr (setattr (setattr (setattr (setattr (setattr (setattr (setattr
    (setattr (setattr (setattr (setattr (setattr (setattr (setattr
      (setattr (setattr (setattr (setattr (fun _ => none)
        .n_years vn_years) .sprays vsprays)
        .fungicide_mixture vfungicide_mixture) .n_k vn_k) .n_l vn_l)
        .decay_rate vdecay_rate) .asymptote vasymptote) .doses vdoses)
        .host_on vhost_on) .replace_cultivars vreplace_cultivars)
        .mutation_proportion vmutation_proportion)
        .mutation_scale_host vmutation_scale_host)
        .mutation_scale_fung vmutation_scale_fung) .k_mu vk_mu) .k_b vk_b)
        .l_mu vl_mu) .l_b vl_b) .I0s vI0s) .betas vbetas

/-- The six host attributes deleted by
config.remove_host_attrs_from_config, in source order. -/
def hostAttrs : List Attr :=
  [.n_l, .host_on, .replace_cultivars, .mutation_scale_host, .l_mu, .l_b]

/-- The pathogen/fungicide attributes that the claim requires to survive
the removal. -/
def keptAttrs : List Attr :=
  [.n_k, .k_mu, .k_b, .decay_rate, .asymptote, .doses,
    .mutation_proportion, .mutation_scale_fung, .betas, .I0s,
    .n_years, .sprays]

/-- config.remove_host_attrs_from_config(obj): delattr for each of the six
host attributes in turn (Config.remove_host_attrs delegates here). -/
def remove_host_attrs_from_config {V : Type} (obj : Attr → Option V) :
    Attr → Option V :=
  hostAttrs.foldl delattr obj

end

/-! ## Helper lemmas -/

theorem edge_values_length (n : ℕ) : (edge_values n).length = n + 1 := by
  simp [edge_values]

theorem getD_map_range {α : Type} (f : ℕ → α) (d : α) {n i : ℕ} (hi : i < n) :
    ((List.range n).map f).getD i d = f i := by
  rw [List.getD_eq_getElem _ d (by simpa using hi)]
  simp

theorem edge_values_getD (n i : ℕ) (hn : 1 ≤ n) (hi : i ≤ n) :
    (edge_values n).getD i 0 = (i : ℝ) / n := by
  rw [edge_values, getD_map_range _ _ (by omega), linspace, if_neg (by omega)]
  push_cast
  ring

theorem sum_map_range_eq (f : ℕ → ℝ) (n : ℕ) :
    ((List.range n).map f).sum = ∑ i ∈ Finset.range n, f i := by
  induction n with
  | zero => simp
  | succ m ih =>
    rw [List.range_succ, List.map_append, List.sum_append,
      Finset.sum_range_succ, ih]
    simp

theorem sum_map_div (l : List ℝ) (s : ℝ) :
    (l.map (fun x => x / s)).sum = l.sum / s := by
  induction l with
  | nil => simp
  | cons a t ih => simp [ih, add_div]

theorem normalise_length {α : Type} [Add α] [Zero α] [Div α] (l : List α) :
    (normalise l).length = l.length := by
  simp [normalise]

theorem normalise_sum (l : List ℝ) (h : l.sum ≠ 0) : (normalise l).sum = 1 := by
  rw [normalise, sum_map_div, div_self h]

theorem normalise_getD (l : List ℝ) (i : ℕ) (hi : i < l.length) :
    (normalise l).getD i 0 = l.getD i 0 / l.sum := by
  rw [normalise, List.getD_eq_getElem _ 0 (by simpa using hi),
    List.getD_eq_getElem _ 0 hi]
  simp

theorem trait_vec_length (n : ℕ) : (trait_vec n).length = n := by
  simp [trait_vec]

theorem trait_vec_getD (n i : ℕ) (hn : 1 ≤ n) (hi : i < n) :
    (trait_vec n).getD i 0 = (2 * i + 1) / (2 * n) := by
  have h1 : (edge_values n).getD 1 0 = (1 : ℝ) / n := by
    simpa using edge_values_getD n 1 hn (by omega)
  have h0 : (edge_values n).getD 0 0 = (0 : ℝ) / n := by
    simpa using edge_values_getD n 0 hn (by omega)
  rw [trait_vec, getD_map_range _ _ hi, h1, h0, linspace]
  rcases Nat.lt_or_ge n 2 with h2 | h2
  · have hn1 : n = 1 := by omega
    have hi0 : i = 0 := by omega
    subst hn1; subst hi0
    norm_num
  · rw [if_neg (by omega)]
    have hnR : (1:ℝ) ≤ (n:ℝ) := by exact_mod_cast hn
    have hn0 : (n:ℝ) ≠ 0 := by positivity
    have hn1 : (n:ℝ) - 1 ≠ 0 := by
      have : (2:ℝ) ≤ (n:ℝ) := by exact_mod_cast h2
      intro hc; linarith
    field_simp
    ring

/-! ## Claim theorems -/

/-- C5: for every n >= 1, trait_vec(n) has length n, is strictly
increasing, is symmetric around 0.5 (entries i and n-1-i sum to 1), and
its first and last values are dx and 1 - dx where dx = 1/(2n) is half the
bin width of the n+1 equally spaced edge values on [0,1]. -/
theorem trait_vec_spec (n : ℕ) (hn : 1 ≤ n) :
    (trait_vec n).length = n
    ∧ (trait_vec n).Pairwise (· < ·)
    ∧ (∀ i, i < n →
        (trait_vec n).getD i 0 + (trait_vec n).getD (n - 1 - i) 0 = 1)
    ∧ (trait_vec n).getD 0 0 = 1 / (2 * n)
    ∧ (trait_vec n).getD (n - 1) 0 = 1 - 1 / (2 * n) := by
  have hnR : (1:ℝ) ≤ (n:ℝ) := by exact_mod_cast hn
  have hn0 : (n:ℝ) ≠ 0 := by positivity
  refine ⟨trait_vec_length n, ?_, ?_, ?_, ?_⟩
  · rw [List.pairwise_iff_getElem]
    intro i j hi hj hij
    rw [trait_vec_length] at hi hj
    rw [← List.getD_eq_getElem _ 0 (by simpa [trait_vec_length] using hi),
      ← List.getD_eq_getElem _ 0 (by simpa [trait_vec_length] using hj),
      trait_vec_getD n i hn hi, trait_vec_getD n j hn hj]
    have hij' : (i:ℝ) < (j:ℝ) := by exact_mod_cast hij
    have h2n : (0:ℝ) < 2 * (n:ℝ) := by linarith
    rw [div_lt_div_iff₀ h2n h2n]
    exact mul_lt_mul_of_pos_right (by linarith) h2n
  · intro i hi
    rw [trait_vec_getD n i hn hi, trait_vec_getD n (n - 1 - i) hn (by omega)]
    have hsub : ((n - 1 - i : ℕ) : ℝ) = (n:ℝ) - 1 - (i:ℝ) := by
      rw [Nat.sub_sub, Nat.cast_sub (by omega)]
      push_cast
      ring
    rw [hsub]
    field_simp
    ring
  · rw [trait_vec_getD n 0 hn (by omega)]
    norm_num
  · rw [trait_vec_getD n (n - 1) hn (by omega)]
    have hsub : ((n - 1 : ℕ) : ℝ) = (n:ℝ) - 1 := by
      rw [Nat.cast_sub (by omega)]; norm_num
    rw [hsub]
    field_simp
    ring

theorem unit_impulse_length (N : ℕ) (idx : ℤ) :
    (unit_impulse N idx).length = N := by
  simp [unit_impulse]

theorem unit_impulse_getD (N : ℕ) (idx : ℤ) (h0 : 0 ≤ idx) (i : ℕ)
    (hi : i < N) :
    (unit_impulse N idx).getD i 0 = if (i : ℤ) = idx then 1 else 0 := by
  rw [unit_impulse, getD_map_range _ _ hi, if_pos h0]
  have hiff : i = idx.toNat ↔ (i : ℤ) = idx := by omega
  rw [if_congr hiff rfl rfl]

theorem unit_impulse_sum (N : ℕ) (idx : ℤ) (h0 : 0 ≤ idx) (hN : idx < N) :
    (unit_impulse N idx).sum = 1 := by
  rw [unit_impulse, if_pos h0, sum_map_range_eq,
    Finset.sum_ite_eq' (Finset.range N) idx.toNat (fun _ => (1:ℝ))]
  rw [if_pos (Finset.mem_range.mpr (by omega))]

/-- C8: for every n >= 1 and mean in [0,1],
initial_point_distribution(n, mean) is a length-n vector holding 1 in the
single bin with index floor(mean * (n-1)) and 0 in every other bin. -/
theorem initial_point_distribution_spec (n : ℕ) (mean : ℝ)
    (hn : 1 ≤ n) (h0 : 0 ≤ mean) (h1 : mean ≤ 1) :
    (initial_point_distribution n mean).length = n
    ∧ ∀ i, i < n → (initial_point_distribution n mean).getD i 0
        = if (i : ℤ) = ⌊mean * ((n : ℝ) - 1)⌋ then 1 else 0 := by
  have hred : initial_point_distribution n mean
      = normalise (unit_impulse n (pyInt (mean * ((n : ℝ) - 1)))) := by
    rw [initial_point_distribution, edge_values_length]
    norm_num
  have hx0 : 0 ≤ mean * ((n : ℝ) - 1) := by
    have : (1:ℝ) ≤ (n:ℝ) := by exact_mod_cast hn
    have : (0:ℝ) ≤ (n:ℝ) - 1 := by linarith
    positivity
  have hpy : pyInt (mean * ((n : ℝ) - 1)) = ⌊mean * ((n : ℝ) - 1)⌋ := by
    rw [pyInt, if_pos hx0]
  have hf0 : 0 ≤ ⌊mean * ((n : ℝ) - 1)⌋ := Int.floor_nonneg.mpr hx0
  have hfn : ⌊mean * ((n : ℝ) - 1)⌋ < (n : ℤ) := by
    rw [Int.floor_lt]
    have hn1 : (0:ℝ) ≤ (n:ℝ) - 1 := by
      have : (1:ℝ) ≤ (n:ℝ) := by exact_mod_cast hn
      linarith
    have : mean * ((n : ℝ) - 1) ≤ (n:ℝ) - 1 :=
      mul_le_of_le_one_left hn1 h1
    push_cast
    linarith
  have hsum : (unit_impulse n (pyInt (mean * ((n : ℝ) - 1)))).sum = 1 := by
    rw [hpy]
    exact unit_impulse_sum n _ hf0 hfn
  constructor
  · rw [hred, normalise_length, unit_impulse_length]
  · intro i hi
    rw [hred, normalise_getD _ _ (by rw [unit_impulse_length]; exact hi),
      hsum, div_one, hpy, unit_impulse_getD n _ hf0 i hi]

/-- C8 witness: at n = 2, mean = 1/2 the single unit bin is bin 0. -/
theorem initial_point_distribution_spec_witness :
    (initial_point_distribution 2 (1/2)).getD 0 0 = 1
    ∧ (initial_point_distribution 2 (1/2)).getD 1 0 = 0 := by
  have h := (initial_point_distribution_spec 2 (1/2) (by norm_num)
    (by norm_num) (by norm_num)).2
  have hfl : ⌊(1/2 : ℝ) * (((2:ℕ) : ℝ) - 1)⌋ = 0 := by
    rw [Int.floor_eq_zero_iff]
    constructor <;> norm_num
  constructor
  · rw [h 0 (by norm_num), if_pos (by rw [hfl]; norm_num)]
  · rw [h 1 (by norm_num), if_neg (by rw [hfl]; omega)]

/-- C10: all three fungicide classes derive the identical spray-schedule
list from the spray count, whatever the dose/decay-rate/curvature
arguments are: [T_2] for 1 spray, [T_2, T_3] for 2, [T_1, T_2, T_3] for 3,
and the empty list for every other count. -/
theorem spray_schedules_identical (T_1 T_2 T_3 FUNG_DECAY_RATE : ℝ)
    (num_sprays : ℤ) (dose doseA doseN curvature : ℝ)
    (decay_rate asymptote decay_rateA : Option ℝ) :
    ((Fungicide.init T_1 T_2 T_3 FUNG_DECAY_RATE num_sprays dose
        decay_rate asymptote).sprays_list
      = (FungicideAsymptote.init T_1 T_2 T_3 FUNG_DECAY_RATE num_sprays
        doseA curvature decay_rateA).sprays_list)
    ∧ ((FungicideAsymptote.init T_1 T_2 T_3 FUNG_DECAY_RATE num_sprays
        doseA curvature decay_rateA).sprays_list
      = (FungicideNoDecay.init T_1 T_2 T_3 num_sprays doseN).sprays_list)
    ∧ ((Fungicide.init T_1 T_2 T_3 FUNG_DECAY_RATE num_sprays dose
        decay_rate asymptote).sprays_list
      = if num_sprays = 1 then [T_2]
        else if num_sprays = 2 then [T_2, T_3]
        else if num_sprays = 3 then [T_1, T_2, T_3]
        else []) :=
  ⟨rfl, rfl, rfl⟩

/-- C9: remove_host_attrs deletes exactly the six host attributes (access
to each of them afterwards finds no attribute, i.e. raises), while every
other attribute set by Config.__init__ is still present with its original
value. -/
theorem remove_host_attrs_spec {V : Type}
    (vn_years vsprays vfungicide_mixture vn_k vn_l vdecay_rate vasymptote
      vdoses vhost_on vreplace_cultivars vmutation_proportion
      vmutation_scale_host vmutation_scale_fung vk_mu vk_b vl_mu vl_b
      vI0s vbetas : V) :
    (∀ k ∈ hostAttrs,
      remove_host_attrs_from_config
        (Config.init vn_years vsprays vfungicide_mixture vn_k vn_l
          vdecay_rate vasymptote vdoses vhost_on vreplace_cultivars
          vmutation_proportion vmutation_scale_host vmutation_scale_fung
          vk_mu vk_b vl_mu vl_b vI0s vbetas) k = none)
    ∧ (∀ k, k ∉ hostAttrs →
      remove_host_attrs_from_config
        (Config.init vn_years vsprays vfungicide_mixture vn_k vn_l
          vdecay_rate vasymptote vdoses vhost_on vreplace_cultivars
          vmutation_proportion vmutation_scale_host vmutation_scale_fung
          vk_mu vk_b vl_mu vl_b vI0s vbetas) k
        = Config.init vn_years vsprays vfungicide_mixture vn_k vn_l
          vdecay_rate vasymptote vdoses vhost_on vreplace_cultivars
          vmutation_proportion vmutation_scale_host vmutation_scale_fung
          vk_mu vk_b vl_mu vl_b vI0s vbetas k)
    ∧ (∀ k ∈ keptAttrs,
      (remove_host_attrs_from_config
        (Config.init vn_years vsprays vfungicide_mixture vn_k vn_l
          vdecay_rate vasymptote vdoses vhost_on vreplace_cultivars
          vmutation_proportion vmutation_scale_host vmutation_scale_fung
          vk_mu vk_b vl_mu vl_b vI0s vbetas) k).isSome = true) := by
  refine ⟨?_, ?_, ?_⟩
  · intro k hk
    fin_cases hk <;>
      simp [remove_host_attrs_from_config, hostAttrs, delattr]
  · intro k hk
    simp only [hostAttrs, List.mem_cons, List.not_mem_nil, or_false] at hk
    push_neg at hk
    obtain ⟨h1, h2, h3, h4, h5, h6⟩ := hk
    simp [remove_host_attrs_from_config, hostAttrs, delattr, h1, h2, h3,
      h4, h5, h6]
  · intro k hk
    fin_cases hk <;>
      simp [remove_host_attrs_from_config, hostAttrs, delattr, Config.init,
        setattr]

/-- C9 witness: a concrete Config over natural-number attribute values. -/
theorem remove_host_attrs_spec_witness :
    remove_host_attrs_from_config
      (Config.init (V := ℕ) 0 1 2 3 4 5 6 7 8 9 10 11 12 13 14 15 16 17 18)
      Attr.n_l = none
    ∧ (remove_host_attrs_from_config
      (Config.init (V := ℕ) 0 1 2 3 4 5 6 7 8 9 10 11 12 13 14 15 16 17 18)
      Attr.n_k).isSome = true :=
  ⟨(remove_host_attrs_spec 0 1 2 3 4 5 6 7 8 9 10 11 12 13 14 15 16 17
      18).1 Attr.n_l (by simp [hostAttrs]),
    (remove_host_attrs_spec 0 1 2 3 4 5 6 7 8 9 10 11 12 13 14 15 16 17
      18).2.2 Attr.n_k (by simp [keptAttrs])⟩

/-- C5 witness: the grid of 3 midpoints starts at 1/6 and ends at 5/6. -/
theorem trait_vec_spec_witness :
    (trait_vec 3).getD 0 0 = 1 / 6 ∧ (trait_vec 3).getD 2 0 = 5 / 6 := by
  have h := trait_vec_spec 3 (by norm_num)
  have h1 := h.2.2.2.1
  have h2 := h.2.2.2.2
  norm_num at h1 h2
  exact ⟨h1, h2⟩

theorem div_le_div_den (x y c : ℝ) (hc : 0 < c) (h : x ≤ y) :
    x / c ≤ y / c := by
  rw [div_eq_mul_inv, div_eq_mul_inv]
  exact mul_le_mul_of_nonneg_right h (inv_nonneg.mpr hc.le)

theorem normalise_mem_nonneg (l : List ℝ) (h : ∀ y ∈ l, 0 ≤ y)
    (hs : 0 < l.sum) : ∀ x ∈ normalise l, 0 ≤ x := by
  intro x hx
  rw [normalise] at hx
  obtain ⟨y, hy, rfl⟩ := List.mem_map.mp hx
  exact div_nonneg (h y hy) hs.le

theorem curvature_edge_vals_length (n : ℕ) :
    (curvature_edge_vals n).length = n + 1 := by
  simp [curvature_edge_vals, edge_values_length]

theorem curvature_edge_vals_getD (n i : ℕ) (hn : 1 ≤ n) (h1 : 1 ≤ i)
    (h2 : i ≤ n) :
    (curvature_edge_vals n).getD i none
      = some (Real.log (1 / ((i:ℝ) / n))) := by
  obtain ⟨k, rfl⟩ : ∃ k, i = k + 1 := ⟨i - 1, by omega⟩
  have hk : k < ((edge_values n).drop 1).length := by
    simp [edge_values_length]; omega
  rw [curvature_edge_vals, List.getD_cons_succ,
    List.getD_eq_getElem _ _ (by simpa using hk), List.getElem_map]
  congr 2
  have h1k : 1 + k < (edge_values n).length := by
    simp [edge_values_length]; omega
  rw [List.getElem_drop (edge_values n), ← List.getD_eq_getElem _ 0 h1k,
    edge_values_getD n (1 + k) hn (by omega)]
  push_cast
  ring_nf

/-- C4: for every n >= 1 and positive shape parameters, beta_dist and
gamma_dist return length-n vectors of non-negative entries summing to
exactly 1 (hence within 1e-9 of 1): CDF differences over the bin edges
(curvature edges whose first bin extends to +infinity in the gamma case)
passed through normalise.  The stated hypotheses on the CDF parameters are
facts of the true Beta and Gamma CDFs: monotonicity, boundedness by the
value at the top of the support, and strict CDF increase across the
support. -/
theorem dist_builders_spec
    (betaCdf gammaCdf : ℝ → ℝ → ℝ → ℝ) (gammaCdfTop : ℝ → ℝ → ℝ)
    (n : ℕ) (a b : ℝ) (hn : 1 ≤ n) (ha : 0 < a) (hb : 0 < b)
    (hBmono : ∀ x y, x ≤ y → betaCdf x a b ≤ betaCdf y a b)
    (hB01 : betaCdf 0 a b < betaCdf 1 a b)
    (hGmono : ∀ x y, x ≤ y → gammaCdf x a (1/b) ≤ gammaCdf y a (1/b))
    (hGtop : ∀ x, gammaCdf x a (1/b) ≤ gammaCdfTop a (1/b))
    (hG0 : gammaCdf 0 a (1/b) < gammaCdfTop a (1/b)) :
    ((beta_dist betaCdf n a b).length = n
      ∧ (∀ x ∈ beta_dist betaCdf n a b, 0 ≤ x)
      ∧ (beta_dist betaCdf n a b).sum = 1)
    ∧ ((gamma_dist gammaCdf gammaCdfTop n a b).length = n
      ∧ (∀ x ∈ gamma_dist gammaCdf gammaCdfTop n a b, 0 ≤ x)
      ∧ (gamma_dist gammaCdf gammaCdfTop n a b).sum = 1) := by
  have hnpos : (0:ℝ) < n := by exact_mod_cast hn
  have hn0 : (n:ℝ) ≠ 0 := ne_of_gt hnpos
  -- the Beta builder
  have hBred : beta_dist betaCdf n a b
      = normalise ((List.range n).map
        (fun i => betaCdf ((edge_values n).getD (i + 1) 0) a b
          - betaCdf ((edge_values n).getD i 0) a b)) := by
    rw [beta_dist, edge_values_length, Nat.add_sub_cancel]
  have hBsum : ((List.range n).map
      (fun i => betaCdf ((edge_values n).getD (i + 1) 0) a b
        - betaCdf ((edge_values n).getD i 0) a b)).sum
      = betaCdf 1 a b - betaCdf 0 a b := by
    rw [sum_map_range_eq,
      Finset.sum_range_sub (fun i => betaCdf ((edge_values n).getD i 0) a b) n]
    rw [edge_values_getD n n hn le_rfl, edge_values_getD n 0 hn (by omega),
      div_self hn0]
    norm_num
  have hBpos : (0:ℝ) < ((List.range n).map
      (fun i => betaCdf ((edge_values n).getD (i + 1) 0) a b
        - betaCdf ((edge_values n).getD i 0) a b)).sum := by
    rw [hBsum]; linarith
  have hBnn : ∀ y ∈ (List.range n).map
      (fun i => betaCdf ((edge_values n).getD (i + 1) 0) a b
        - betaCdf ((edge_values n).getD i 0) a b), 0 ≤ y := by
    intro y hy
    obtain ⟨i, hi, rfl⟩ := List.mem_map.mp hy
    rw [List.mem_range] at hi
    have hle : (edge_values n).getD i 0 ≤ (edge_values n).getD (i + 1) 0 := by
      rw [edge_values_getD n i hn (by omega),
        edge_values_getD n (i + 1) hn (by omega)]
      exact div_le_div_den _ _ _ hnpos (by push_cast; linarith)
    linarith [hBmono _ _ hle]
  -- the Gamma builder
  have hGred : gamma_dist gammaCdf gammaCdfTop n a b
      = normalise ((List.range n).map
        (fun i => cdfAtCurvature gammaCdf gammaCdfTop a (1 / b)
            ((curvature_edge_vals n).getD i none)
          - cdfAtCurvature gammaCdf gammaCdfTop a (1 / b)
            ((curvature_edge_vals n).getD (i + 1) none))) := by
    rw [gamma_dist, curvature_edge_vals_length, Nat.add_sub_cancel]
  have hg0 : cdfAtCurvature gammaCdf gammaCdfTop a (1 / b)
      ((curvature_edge_vals n).getD 0 none) = gammaCdfTop a (1 / b) := rfl
  have hgn : cdfAtCurvature gammaCdf gammaCdfTop a (1 / b)
      ((curvature_edge_vals n).getD n none) = gammaCdf 0 a (1 / b) := by
    rw [curvature_edge_vals_getD n n hn hn le_rfl, div_self hn0]
    norm_num [cdfAtCurvature]
  have hGsum : ((List.range n).map
      (fun i => cdfAtCurvature gammaCdf gammaCdfTop a (1 / b)
          ((curvature_edge_vals n).getD i none)
        - cdfAtCurvature gammaCdf gammaCdfTop a (1 / b)
          ((curvature_edge_vals n).getD (i + 1) none))).sum
      = gammaCdfTop a (1 / b) - gammaCdf 0 a (1 / b) := by
    rw [sum_map_range_eq,
      Finset.sum_range_sub' (fun i => cdfAtCurvature gammaCdf gammaCdfTop
        a (1 / b) ((curvature_edge_vals n).getD i none)) n, hg0, hgn]
  have hGstep : ∀ i, i < n →
      cdfAtCurvature gammaCdf gammaCdfTop a (1 / b)
        ((curvature_edge_vals n).getD (i + 1) none)
      ≤ cdfAtCurvature gammaCdf gammaCdfTop a (1 / b)
        ((curvature_edge_vals n).getD i none) := by
    intro i hi
    rcases Nat.eq_zero_or_pos i with h0 | hpos
    · subst h0
      rw [curvature_edge_vals_getD n 1 hn (by omega) (by omega), hg0]
      exact hGtop _
    · rw [curvature_edge_vals_getD n i hn hpos (by omega),
        curvature_edge_vals_getD n (i + 1) hn (by omega) (by omega)]
      have hipos : (0:ℝ) < (i:ℝ) / n := by
        apply div_pos _ hnpos
        exact_mod_cast hpos
      have hstep : (i:ℝ) / n ≤ ((i:ℝ) + 1) / n :=
        div_le_div_den _ _ _ hnpos (by linarith)
      have hinv : 1 / (((i:ℝ) + 1) / n) ≤ 1 / ((i:ℝ) / n) :=
        one_div_le_one_div_of_le hipos hstep
      have hlog : Real.log (1 / (((i:ℝ) + 1) / n))
          ≤ Real.log (1 / ((i:ℝ) / n)) := by
        apply Real.log_le_log _ hinv
        positivity
      have := hGmono _ _ hlog
      simpa [cdfAtCurvature] using this
  have hGnn : ∀ y ∈ (List.range n).map
      (fun i => cdfAtCurvature gammaCdf gammaCdfTop a (1 / b)
          ((curvature_edge_vals n).getD i none)
        - cdfAtCurvature gammaCdf gammaCdfTop a (1 / b)
          ((curvature_edge_vals n).getD (i + 1) none)), 0 ≤ y := by
    intro y hy
    obtain ⟨i, hi, rfl⟩ := List.mem_map.mp hy
    rw [List.mem_range] at hi
    linarith [hGstep i hi]
  have hGpos : (0:ℝ) < ((List.range n).map
      (fun i => cdfAtCurvature gammaCdf gammaCdfTop a (1 / b)
          ((curvature_edge_vals n).getD i none)
        - cdfAtCurvature gammaCdf gammaCdfTop a (1 / b)
          ((curvature_edge_vals n).getD (i + 1) none))).sum := by
    rw [hGsum]; linarith
  refine ⟨⟨?_, ?_, ?_⟩, ⟨?_, ?_, ?_⟩⟩
  · rw [hBred, normalise_length]; simp
  · rw [hBred]; exact normalise_mem_nonneg _ hBnn hBpos
  · rw [hBred, normalise_sum _ (ne_of_gt hBpos)]
  · rw [hGred, normalise_length]; simp
  · rw [hGred]; exact normalise_mem_nonneg _ hGnn hGpos
  · rw [hGred, normalise_sum _ (ne_of_gt hGpos)]

/-- C4 witness: concrete CDF models satisfying the hypotheses at n = 2,
a = b = 1. -/
theorem dist_builders_spec_witness :
    (beta_dist (fun x _ _ => x) 2 1 1).sum = 1
    ∧ (gamma_dist (fun _ _ _ => (0:ℝ)) (fun _ _ => 1) 2 1 1).sum = 1 := by
  have h := dist_builders_spec (fun x _ _ => x) (fun _ _ _ => (0:ℝ))
    (fun _ _ => 1) 2 1 1 (by norm_num) (by norm_num) (by norm_num)
    (fun x y hxy => hxy) (by norm_num) (fun _ _ _ => le_rfl)
    (fun _ => zero_le_one) zero_lt_one
  exact ⟨h.1.2.2, h.2.2.2⟩

theorem addToHead_length (x : ℝ) (l : List ℝ) :
    (addToHead x l).length = l.length := by
  cases l <;> simp [addToHead]

theorem addToLast_length (x : ℝ) (l : List ℝ) :
    (addToLast x l).length = l.length := by
  induction l with
  | nil => simp [addToLast]
  | cons a t ih =>
    cases t with
    | nil => simp [addToLast]
    | cons b r => simpa [addToLast] using ih

theorem addToHead_sum (x : ℝ) (l : List ℝ) (h : l ≠ []) :
    (addToHead x l).sum = x + l.sum := by
  cases l with
  | nil => exact absurd rfl h
  | cons a t => simp [addToHead]; ring

theorem addToLast_sum (x : ℝ) (l : List ℝ) (h : l ≠ []) :
    (addToLast x l).sum = x + l.sum := by
  induction l with
  | nil => exact absurd rfl h
  | cons a t ih =>
    cases t with
    | nil => simp [addToLast]; ring
    | cons b r =>
      rw [addToLast, List.sum_cons, ih (by simp)]
      simp only [List.sum_cons]
      ring

theorem zipWith_sub_sum (a : ℝ) (l : List ℝ) :
    (List.zipWith (fun x y => y - x) (a :: l) l).sum = l.getLastD a - a := by
  induction l generalizing a with
  | nil => simp
  | cons b t ih =>
    rw [List.zipWith_cons_cons, List.sum_cons, ih b, List.getLastD_cons]
    ring

theorem zipWith_comb_sum (p q : ℝ) (l1 : List ℝ) :
    ∀ l2 : List ℝ, l1.length = l2.length →
      (List.zipWith (fun d nd => p * d + q * nd) l1 l2).sum
        = p * l1.sum + q * l2.sum := by
  induction l1 with
  | nil =>
    intro l2 h
    rw [List.length_nil] at h
    rw [List.eq_nil_of_length_eq_zero h.symm]
    simp
  | cons a t ih =>
    intro l2 h
    cases l2 with
    | nil => simp at h
    | cons b r =>
      rw [List.zipWith_cons_cons, List.sum_cons, List.sum_cons,
        List.sum_cons, ih r (by simpa using h)]
      ring

theorem dispersal_length (normCdf : ℝ → ℝ → ℝ → ℝ) (vec : List ℝ)
    (parent_index : ℕ) (mut_scale : ℝ) :
    (dispersal normCdf vec parent_index mut_scale).length = vec.length := by
  simp only [dispersal, addToLast_length, addToHead_length,
    List.length_zipWith, List.length_tail, List.length_map,
    edge_values_length]
  omega

theorem dispersal_sum (normCdf : ℝ → ℝ → ℝ → ℝ) (vec : List ℝ)
    (parent_index : ℕ) (mut_scale : ℝ) (hN : 1 ≤ vec.length) :
    (dispersal normCdf vec parent_index mut_scale).sum = 1 := by
  rw [dispersal]
  set disp := (edge_values vec.length).map
    (fun e => normCdf e (vec.getD parent_index 0)
      (mut_scale ^ (0.5 : ℝ))) with hdisp
  have hlen : disp.length = vec.length + 1 := by
    rw [hdisp, List.length_map, edge_values_length]
  cases hd : disp with
  | nil => rw [hd] at hlen; simp at hlen
  | cons a l =>
    rw [hd] at hlen
    have hl : l.length = vec.length := by simpa using hlen
    have hzw : (List.zipWith (fun x y => y - x) (a :: l) l).length
        = l.length := by
      rw [List.length_zipWith, List.length_cons]
      omega
    have hzw_ne : List.zipWith (fun x y => y - x) (a :: l) l ≠ [] := by
      apply List.ne_nil_of_length_pos
      omega
    have hah_ne : addToHead ((a :: l).headD 0)
        (List.zipWith (fun x y => y - x) (a :: l) l) ≠ [] := by
      apply List.ne_nil_of_length_pos
      rw [addToHead_length]
      omega
    simp only [List.tail_cons]
    rw [addToLast_sum _ _ hah_ne,
      addToHead_sum _ _ hzw_ne, zipWith_sub_sum a l]
    rw [List.getLastD_cons, List.headD_cons]
    ring

/-- C1: for every grid vector of length N >= 1, every mutation_scale > 0
and every p in [0,1], get_dispersal_kernel(vec, p, mutation_scale)
consists of N columns each of length N and each summing to exactly 1
(hence within 1e-9 of 1): the dispersal vector folds Gaussian CDF mass
below edge 0 into the first bin and mass above the last edge into the
last bin, so each column p*dispersing + (1-p)*unit_impulse conserves
total probability, whatever the external Gaussian CDF values are. -/
theorem kernel_columns_sum_one (normCdf : ℝ → ℝ → ℝ → ℝ) (vec : List ℝ)
    (p mutation_scale : ℝ) (hN : 1 ≤ vec.length)
    (hm : 0 < mutation_scale) (hp0 : 0 ≤ p) (hp1 : p ≤ 1) :
    (get_dispersal_kernel normCdf vec p mutation_scale).length = vec.length
    ∧ ∀ col ∈ get_dispersal_kernel normCdf vec p mutation_scale,
        col.length = vec.length ∧ col.sum = 1 := by
  constructor
  · simp [get_dispersal_kernel]
  · intro col hcol
    obtain ⟨parent, hparent, rfl⟩ := List.mem_map.mp hcol
    rw [List.mem_range] at hparent
    have hdl := dispersal_length normCdf vec parent mutation_scale
    have hul := unit_impulse_length vec.length (parent : ℤ)
    constructor
    · rw [List.length_zipWith, hdl, hul]
      omega
    · rw [zipWith_comb_sum p (1 - p) _ _ (by rw [hdl, hul]),
        dispersal_sum normCdf vec parent mutation_scale hN,
        unit_impulse_sum vec.length (parent : ℤ) (by omega) (by omega)]
      ring

/-- C1 witness: the one-bin grid with an arbitrary constant external CDF,
p = 1/2, mutation_scale = 1. -/
theorem kernel_columns_sum_one_witness :
    ((get_dispersal_kernel (fun _ _ _ => 0) [(1:ℝ)/2] (1/2) 1).getD 0
      []).sum = 1 := by
  have h := kernel_columns_sum_one (fun _ _ _ => 0) [(1:ℝ)/2] (1/2) 1
    (by simp) (by norm_num) (by norm_num) (by norm_num)
  have hlen : 0 < (get_dispersal_kernel (fun _ _ _ => 0) [(1:ℝ)/2]
      (1/2) 1).length := by
    rw [h.1]
    simp
  have hmem : (get_dispersal_kernel (fun _ _ _ => 0) [(1:ℝ)/2] (1/2)
      1).getD 0 [] ∈ get_dispersal_kernel (fun _ _ _ => 0) [(1:ℝ)/2]
      (1/2) 1 := by
    rw [List.getD_eq_getElem _ _ hlen]
    exact List.getElem_mem hlen
  exact (h.2 _ hmem).2

theorem le_of_head_le_schedule (T_1 T_2 T_3 t : ℝ) (ns : ℤ)
    (h12 : T_1 ≤ T_2) (h23 : T_2 ≤ T_3)
    (ht : ∀ hd, (if ns = 1 then [T_2] else if ns = 2 then [T_2, T_3]
        else if ns = 3 then [T_1, T_2, T_3]
        else ([] : List ℝ)).head? = some hd → t ≤ hd) :
    ∀ T ∈ (if ns = 1 then [T_2] else if ns = 2 then [T_2, T_3]
        else if ns = 3 then [T_1, T_2, T_3] else ([] : List ℝ)), t ≤ T := by
  intro T hT
  split_ifs at ht hT with h1 h2 h3
  · have ht2 := ht T_2 rfl
    simp only [List.mem_singleton] at hT
    subst hT
    exact ht2
  · have ht2 := ht T_2 rfl
    simp only [List.mem_cons, List.mem_singleton, List.not_mem_nil,
      or_false] at hT
    rcases hT with rfl | rfl
    · exact ht2
    · linarith
  · have ht1 := ht T_1 rfl
    simp only [List.mem_cons, List.mem_singleton, List.not_mem_nil,
      or_false] at hT
    rcases hT with rfl | rfl | rfl
    · exact ht1
    · linarith
    · linarith
  · simp at hT

theorem fungicide_effect_eq_one (f : Fungicide) (value t : ℝ)
    (h : ∀ T ∈ f.sprays_list, t ≤ T) : f.effect value t = 1 := by
  have h0 : (f.sprays_list.map
      (fun T_spray => if t > T_spray
        then f.dose * Real.exp (-(f.decay_rate * (t - T_spray)))
        else 0)).sum = 0 := by
    apply List.sum_eq_zero
    intro x hx
    obtain ⟨T, hT, rfl⟩ := List.mem_map.mp hx
    exact if_neg (not_lt.mpr (h T hT))
  rw [Fungicide.effect, if_pos h0]

theorem fungicideAsymptote_effect_eq_one (f : FungicideAsymptote)
    (value t : ℝ) (h : ∀ T ∈ f.sprays_list, t ≤ T) :
    f.effect value t = 1 := by
  have h0 : (f.sprays_list.map
      (fun T_spray => if t > T_spray
        then f.dose * Real.exp (-(f.decay_rate * (t - T_spray)))
        else 0)).sum = 0 := by
    apply List.sum_eq_zero
    intro x hx
    obtain ⟨T, hT, rfl⟩ := List.mem_map.mp hx
    exact if_neg (not_lt.mpr (h T hT))
  rw [FungicideAsymptote.effect, if_pos h0]

theorem foldl_dose_const (t dose : ℝ) (l : List ℝ)
    (h : ∀ T ∈ l, t ≤ T) : ∀ c : ℝ,
      l.foldl (fun c T_spray =>
        if t > T_spray ∧ t < T_spray + 240 then dose else c) c = c := by
  induction l with
  | nil => intro c; rfl
  | cons a r ih =>
    intro c
    rw [List.foldl_cons, if_neg]
    · exact ih (fun T hT => h T (List.mem_cons.mpr (Or.inr hT))) c
    · intro hc
      exact absurd hc.1 (not_lt.mpr (h a (List.mem_cons_self a r)))

theorem fungicideNoDecay_effect_eq_one (f : FungicideNoDecay)
    (value t : ℝ) (h : ∀ T ∈ f.sprays_list, t ≤ T) :
    f.effect value t = 1 := by
  have h0 : f.sprays_list.foldl (fun c T_spray =>
      if t > T_spray ∧ t < T_spray + 240 then f.dose else c) 0 = 0 :=
    foldl_dose_const t f.dose f.sprays_list h 0
  rw [FungicideNoDecay.effect, if_pos h0]

/-- C6: for each of the three fungicide variants, and every trait value in
(0,1], the effect multiplier is exactly 1 at every time t at or before the
first scheduled spray time (the schedule head); in particular for a spray
count of 0 or above 3 the schedule is empty, the head condition is vacuous,
and the effect is 1 at every time. -/
theorem effect_one_before_first_spray (T_1 T_2 T_3 FUNG_DECAY_RATE : ℝ)
    (num_sprays : ℤ) (dose doseA doseN curvature value t : ℝ)
    (decay_rate asymptote decay_rateA : Option ℝ)
    (hv0 : 0 < value) (hv1 : value ≤ 1)
    (h12 : T_1 ≤ T_2) (h23 : T_2 ≤ T_3)
    (ht : ∀ hd, (Fungicide.init T_1 T_2 T_3 FUNG_DECAY_RATE num_sprays dose
        decay_rate asymptote).sprays_list.head? = some hd → t ≤ hd) :
    (Fungicide.init T_1 T_2 T_3 FUNG_DECAY_RATE num_sprays dose
      decay_rate asymptote).effect value t = 1
    ∧ (FungicideAsymptote.init T_1 T_2 T_3 FUNG_DECAY_RATE num_sprays
      doseA curvature decay_rateA).effect value t = 1
    ∧ (FungicideNoDecay.init T_1 T_2 T_3 num_sprays doseN).effect value t
      = 1 := by
  have hle : ∀ T ∈ (if num_sprays = 1 then [T_2]
      else if num_sprays = 2 then [T_2, T_3]
      else if num_sprays = 3 then [T_1, T_2, T_3] else ([] : List ℝ)),
      t ≤ T :=
    le_of_head_le_schedule T_1 T_2 T_3 t num_sprays h12 h23 ht
  exact ⟨fungicide_effect_eq_one _ value t hle,
    fungicideAsymptote_effect_eq_one _ value t hle,
    fungicideNoDecay_effect_eq_one _ value t hle⟩

/-- C6 witness: two sprays scheduled at times 2 and 3, queried at t = 0. -/
theorem effect_one_before_first_spray_witness :
    (Fungicide.init 1 2 3 1 2 1 none none).effect 1 0 = 1
    ∧ (FungicideNoDecay.init 1 2 3 2 1).effect 1 0 = 1 := by
  have h := effect_one_before_first_spray 1 2 3 1 2 1 1 1 1 1 0
    none none none (by norm_num) (by norm_num) (by norm_num) (by norm_num)
    (by
      intro hd hh
      simp [Fungicide.init] at hh
      subst hh
      norm_num)
  exact ⟨h.1, h.2.2⟩

/-- C3: find_beta returns the beta located by the optimizer exactly when the
optimizer reports success and the result lies strictly inside the bounds
(1e-4, 5e-2); in every other case (optimizer failure, or the result at or
beyond a bound) it returns the NaN sentinel, modelled as none -- never
zero or any other number. -/
theorem find_beta_nan_sentinel
    (minimize : (ℝ → ℝ) → ℝ → ℝ × ℝ → MinimizeResult)
    (find_sev : ℝ → ℝ → ℝ) (final_sev I0 : ℝ) :
    (((minimize (fun b => beta_objective find_sev b final_sev I0)
          0.0078 (1e-4, 5e-2)).success = true
      ∧ (minimize (fun b => beta_objective find_sev b final_sev I0)
          0.0078 (1e-4, 5e-2)).x < 5e-2
      ∧ (minimize (fun b => beta_objective find_sev b final_sev I0)
          0.0078 (1e-4, 5e-2)).x > 1e-4)
      → find_beta minimize find_sev final_sev I0
        = some (minimize (fun b => beta_objective find_sev b final_sev I0)
          0.0078 (1e-4, 5e-2)).x)
    ∧ (¬((minimize (fun b => beta_objective find_sev b final_sev I0)
          0.0078 (1e-4, 5e-2)).success = true
      ∧ (minimize (fun b => beta_objective find_sev b final_sev I0)
          0.0078 (1e-4, 5e-2)).x < 5e-2
      ∧ (minimize (fun b => beta_objective find_sev b final_sev I0)
          0.0078 (1e-4, 5e-2)).x > 1e-4)
      → find_beta minimize find_sev final_sev I0 = none) := by
  constructor
  · intro h
    rw [find_beta]
    split_ifs with hc
    · rfl
    · exact absurd h hc
  · intro h
    rw [find_beta]
    split_ifs with hc
    · exact absurd hc h
    · rfl

/-- C3 witness: an optimizer model that succeeds at 1e-2, strictly inside
the bounds. -/
theorem find_beta_nan_sentinel_witness :
    find_beta (fun _ _ _ => ⟨1e-2, true⟩) (fun _ _ => 0) 0 0
      = some (1e-2 : ℝ) :=
  (find_beta_nan_sentinel (fun _ _ _ => ⟨1e-2, true⟩) (fun _ _ => 0) 0 0).1
    ⟨rfl, by show (1e-2:ℝ) < 5e-2; norm_num,
      by show (1e-2:ℝ) > 1e-4; norm_num⟩

/-- C2 (code bug): with the two-point time grid t_vals = [1456, 2515] and
an integrator that reports failure on its single -- and hence final --
integration step while leaving the state unchanged,
find_soln_given_beta_and_no_control returns Except.ok with the stale
pre-step state duplicated into the final column instead of raising: the
success flag is checked before each step of the loop but never after the
final integrate call. -/
theorem find_soln_final_step_unchecked :
    find_soln_given_beta_and_no_control
      (fun st _ => { y := st.y, successful := false }) 1 1456 2515 0
      (some [1456, 2515])
      = Except.ok [((1:ℝ), (0:ℝ)), (1, 0)] := by
  norm_num [find_soln_given_beta_and_no_control, odeLoop]

theorem RFloat.nan_sub (y : RFloat) : RFloat.nan - y = RFloat.nan := by
  cases y <;> rfl

theorem RFloat.nan_div (y : RFloat) : RFloat.nan / y = RFloat.nan := by
  cases y <;> rfl

/-- C7 counterexample: at n = 2 and non-positive shape parameter a = -1,
where the external scipy CDFs return NaN everywhere, gamma_dist and
beta_dist return normally -- their only code path is CDF differences fed
to normalise, with no validation or error branch -- and every entry of
the returned vector is NaN. -/
theorem dist_builders_nan_counterexample :
    gamma_dist gammaCdfInvalid gammaCdfTopInvalid 2 (-1) 1
      = [RFloat.nan, RFloat.nan]
    ∧ beta_dist betaCdfInvalid 2 (-1) 1 = [RFloat.nan, RFloat.nan] :=
  ⟨rfl, rfl⟩

/-- C7 amended: for non-positive shape parameters gamma_dist and beta_dist
do not validate, clamp or report; the NaN values returned by the external
CDFs propagate through the bin differences and normalise, and the
builders silently return an all-NaN vector of length n. -/
theorem dist_builders_nan_silent
    (gammaCdf : ℝ → ℝ → ℝ → RFloat) (gammaCdfTop : ℝ → ℝ → RFloat)
    (betaCdf : ℝ → ℝ → ℝ → RFloat) (n : ℕ) (a b : ℝ)
    (hG : ∀ x, gammaCdf x a (1/b) = RFloat.nan)
    (hGtop : gammaCdfTop a (1/b) = RFloat.nan)
    (hB : ∀ x, betaCdf x a b = RFloat.nan) :
    gamma_dist gammaCdf gammaCdfTop n a b = List.replicate n RFloat.nan
    ∧ beta_dist betaCdf n a b = List.replicate n RFloat.nan := by
  have hcdfAt : ∀ o : Option ℝ,
      cdfAtCurvature gammaCdf gammaCdfTop a (1/b) o = RFloat.nan := by
    intro o
    cases o with
    | none => exact hGtop
    | some x => exact hG x
  constructor
  · rw [gamma_dist, List.eq_replicate_iff]
    constructor
    · rw [normalise_length, List.length_map, List.length_range,
        curvature_edge_vals_length]
      omega
    · intro y hy
      rw [normalise] at hy
      obtain ⟨z, hz, rfl⟩ := List.mem_map.mp hy
      obtain ⟨i, hi, rfl⟩ := List.mem_map.mp hz
      rw [hcdfAt, hcdfAt, RFloat.nan_sub, RFloat.nan_div]
  · rw [beta_dist, List.eq_replicate_iff]
    constructor
    · rw [normalise_length, List.length_map, List.length_range,
        edge_values_length]
      omega
    · intro y hy
      rw [normalise] at hy
      obtain ⟨z, hz, rfl⟩ := List.mem_map.mp hy
      obtain ⟨i, hi, rfl⟩ := List.mem_map.mp hz
      rw [hB, hB, RFloat.nan_sub, RFloat.nan_div]

/-- C7 amended witness: the invalid-parameter CDF models at n = 3. -/
theorem dist_builders_nan_silent_witness :
    gamma_dist gammaCdfInvalid gammaCdfTopInvalid 3 (-1) 1
      = List.replicate 3 RFloat.nan
    ∧ beta_dist betaCdfInvalid 3 (-1) 1 = List.replicate 3 RFloat.nan :=
  dist_builders_nan_silent gammaCdfInvalid gammaCdfTopInvalid
    betaCdfInvalid 3 (-1) 1 (fun _ => rfl) rfl (fun _ => rfl)

end Polygenic
